import Mathlib

/-
Shallow embedding of the composition engine of `albumentations`
(`albumentations/core/composition.py`).

Modelling conventions:
* Python floats used as probabilities are modelled as rationals (`ℚ`).
* The process-wide random generator is modelled by explicit "dice" arguments:
  each call receives the gating coin (`random.random()`), a stream of coins for
  the children (`coins : Nat → ℚ`), and — where `random_utils.choice` is used —
  the drawn index/indices as an explicit argument (`idx`, `draw`).
  `random_utils` itself is an external collaborator (it is not part of
  `composition.py`); any value it can return is quantified over.
* A child transform (`BasicTransform`, external) is modelled by its probability
  `p`, its effect `act` on the data bundle, and its `available_keys`/
  `targets_as_params` contribution `keys`.  `BasicTransform.__call__` gates on
  `force_apply or random.random() < p`.
* Python exceptions are modelled with `Except String`; the string holds the
  exception class and message.
* Python dicts are modelled as association lists in insertion order.
-/

set_option linter.unusedVariables false

namespace AlbumComp

/-- External child transform: probability, effect on the bundle, and the keys
it contributes to `_available_keys` (its `available_keys` plus
`targets_as_params`, both external data). -/
structure Tr (α : Type) where
  p : ℚ
  act : α → α
  keys : List String := []

/-- Embeds `BasicTransform.__call__(force_apply=force, **data)` (external contract):
runs its effect iff `force_apply or random.random() < p`. -/
def Tr.call {α : Type} (t : Tr α) (force : Bool) (coin : ℚ) (d : α) : α :=
  if force = true ∨ coin < t.p then t.act d else d

/-- Sequential invocation `data = t(**data)` of a list of children, none of
them forced; child `k` consumes coin `coins (i0 + k)`. -/
def callSeqAux {α : Type} (coins : Nat → ℚ) : List (Tr α) → Nat → α → α
  | [], _, d => d
  | t :: rest, i, d => callSeqAux coins rest (i + 1) (t.call false (coins i) d)

/-- Embeds `for t in self.transforms: data = t(**data)`. -/
def callSeq {α : Type} (ts : List (Tr α)) (coins : Nat → ℚ) (d : α) : α :=
  callSeqAux coins ts 0 d

/-- Embeds `for t in self.transforms: data = t(**data); data = check_data_post_transform(data)`
(the loop body of `SomeOf.__call__` in replay mode and of `Sequential.__call__`). -/
def callSeqPostAux {α : Type} (coins : Nat → ℚ) (post : α → α) :
    List (Tr α) → Nat → α → α
  | [], _, d => d
  | t :: rest, i, d => callSeqPostAux coins post rest (i + 1) (post (t.call false (coins i) d))

def callSeqPost {α : Type} (ts : List (Tr α)) (coins : Nat → ℚ) (post : α → α) (d : α) : α :=
  callSeqPostAux coins post ts 0 d

/-- Weight normalization shared by `OneOf.__init__` and `SomeOf.__init__`:
`transforms_ps = [t.p for t in transforms]; s = sum(...); [t / s for t in transforms_ps]`.
Python raises `ZeroDivisionError` as soon as one division by `s = 0` is
executed, i.e. exactly when the list is non-empty and the sum is zero. -/
def normalizePs (ps : List ℚ) : Except String (List ℚ) :=
  if ps ≠ [] ∧ ps.sum = 0 then
    .error "ZeroDivisionError: float division by zero"
  else
    .ok (ps.map (fun t => t / ps.sum))

/-- Embeds `OneOf` state after `__init__`. -/
structure OneOfC (α : Type) where
  transforms : List (Tr α)
  p : ℚ
  replay_mode : Bool
  transforms_ps : List ℚ

/-- Embeds `OneOf.__init__(transforms, p)`. -/
def oneOfInit {α : Type} (ts : List (Tr α)) (p : ℚ) : Except String (OneOfC α) := do
  let ps ← normalizePs (ts.map Tr.p)
  .ok ⟨ts, p, false, ps⟩

/-- Embeds `OneOf.__call__(*args, force_apply=force, **data)`.  `nargs` counts the
positional arguments (they are silently ignored by this method); `idx` is the
index drawn by `random_utils.choice(len(transforms), p=transforms_ps)`. -/
def oneOfCall {α : Type} (o : OneOfC α) (nargs : Nat) (force : Bool) (gate : ℚ)
    (coins : Nat → ℚ) (idx : Nat) (d : α) : Except String α :=
  if o.replay_mode then
    .ok (callSeq o.transforms coins d)
  else if o.transforms_ps ≠ [] ∧ (force = true ∨ gate < o.p) then
    match o.transforms[idx]? with
    | some t => .ok (t.call true 0 d)
    | none => .error "IndexError: list index out of range"
  else
    .ok d

/-- Embeds `SomeOf` state after `__init__` (also used for `RandomOrder`, which only
overrides `_get_idx`).  `postCheck` models `check_data_post_transform`: it is
the identity unless a parent `Compose` installs its `check_each_transform`
processor tuple into this container. -/
structure SomeOfC (α : Type) where
  transforms : List (Tr α)
  n : Nat
  replace : Bool
  p : ℚ
  replay_mode : Bool
  transforms_ps : List ℚ
  postCheck : α → α

/-- Embeds `SomeOf.__init__(transforms, n, replace, p)`.  Returns the constructed
state together with a flag recording whether the non-fatal
"`n` is greater than number of transforms" warning was emitted. -/
def someOfInit {α : Type} (ts : List (Tr α)) (n : Nat) (replace : Bool) (p : ℚ) :
    Except String (SomeOfC α × Bool) := do
  let clamp := replace = false ∧ n > ts.length
  let n' := if clamp then ts.length else n
  let ps ← normalizePs (ts.map Tr.p)
  .ok (⟨ts, n', replace, p, false, ps, id⟩, decide clamp)

/-- Embeds `data = transforms[i](force_apply=True, **data); data = check_data_post_transform(data)`
iterated over a list of drawn indices (the loop body of `SomeOf.__call__`). -/
def applyIdxs {α : Type} (ts : List (Tr α)) (post : α → α) :
    List Nat → α → Except String α
  | [], d => .ok d
  | i :: rest, d =>
    match ts[i]? with
    | some t => applyIdxs ts post rest (post (t.call true 0 d))
    | none => .error "IndexError: list index out of range"

/-- Embeds `SomeOf._get_idx`: the drawn index array is sorted in place
(`idx.sort()`, ascending). -/
def sortIdx (draw : List Nat) : List Nat :=
  draw.insertionSort (· ≤ ·)

/-- Embeds `SomeOf.__call__(*arg, force_apply=force, **data)`; `draw` is the raw
index sample returned by `random_utils.choice(..., size=n, replace=...)`. -/
def someOfCall {α : Type} (s : SomeOfC α) (nargs : Nat) (force : Bool) (gate : ℚ)
    (coins : Nat → ℚ) (draw : List Nat) (d : α) : Except String α :=
  if s.replay_mode then
    .ok (callSeqPost s.transforms coins s.postCheck d)
  else if s.transforms_ps ≠ [] ∧ (force = true ∨ gate < s.p) then
    applyIdxs s.transforms s.postCheck (sortIdx draw) d
  else
    .ok d

/-- Embeds `RandomOrder.__call__`: identical to `SomeOf.__call__` except that
`RandomOrder._get_idx` does not sort the drawn indices. -/
def randomOrderCall {α : Type} (s : SomeOfC α) (nargs : Nat) (force : Bool) (gate : ℚ)
    (coins : Nat → ℚ) (draw : List Nat) (d : α) : Except String α :=
  if s.replay_mode then
    .ok (callSeqPost s.transforms coins s.postCheck d)
  else if s.transforms_ps ≠ [] ∧ (force = true ∨ gate < s.p) then
    applyIdxs s.transforms s.postCheck draw d
  else
    .ok d

/-- Embeds `OneOrOther` state after `__init__`. -/
structure OneOrOtherC (α : Type) where
  transforms : List (Tr α)
  p : ℚ
  replay_mode : Bool

/-- Embeds `OneOrOther.__init__(first, second, transforms, p)`.  Returns the state
and a flag for the non-fatal "Length of transforms is not equal to 2"
warning. -/
def oneOrOtherInit {α : Type} (first? second? : Option (Tr α))
    (transforms? : Option (List (Tr α))) (p : ℚ) :
    Except String (OneOrOtherC α × Bool) :=
  match transforms? with
  | none =>
    match first?, second? with
    | some f, some s => .ok (⟨[f, s], p, false⟩, false)
    | _, _ => .error "ValueError: You must set both first and second or set transforms argument."
  | some ts => .ok (⟨ts, p, false⟩, decide (ts.length ≠ 2))

/-- Embeds `OneOrOther.__call__(*args, force_apply=force, **data)`.  Note that the
incoming `force_apply` is ignored: gating is `random.random() < self.p`
alone, and whichever branch is taken the chosen child is forced. -/
def oneOrOtherCall {α : Type} (o : OneOrOtherC α) (nargs : Nat) (force : Bool)
    (gate : ℚ) (coins : Nat → ℚ) (d : α) : Except String α :=
  if o.replay_mode then
    .ok (callSeq o.transforms coins d)
  else if gate < o.p then
    match o.transforms[0]? with
    | some t => .ok (t.call true 0 d)
    | none => .error "IndexError: list index out of range"
  else
    match o.transforms.getLast? with
    | some t => .ok (t.call true 0 d)
    | none => .error "IndexError: list index out of range"

/-- Embeds `Sequential` state after `__init__`.  `postCheck` as in `SomeOfC`. -/
structure SequentialC (α : Type) where
  transforms : List (Tr α)
  p : ℚ
  replay_mode : Bool
  postCheck : α → α

/-- Embeds `Sequential.__init__(transforms, p)`. -/
def sequentialInit {α : Type} (ts : List (Tr α)) (p : ℚ) : SequentialC α :=
  ⟨ts, p, false, id⟩

/-- Embeds `Sequential.__call__(*args, force_apply=force, **data)`: gate once by
`replay_mode or force_apply or random.random() < p`, then run every child
(unforced: `data = t(**data)`) followed by `check_data_post_transform`. -/
def sequentialCall {α : Type} (s : SequentialC α) (nargs : Nat) (force : Bool)
    (gate : ℚ) (coins : Nat → ℚ) (d : α) : Except String α :=
  if s.replay_mode = true ∨ force = true ∨ gate < s.p then
    .ok (callSeqPost s.transforms coins s.postCheck d)
  else
    .ok d

/-
`SelectiveChannelTransform`.  The `image` payload (an `H × W × C` numpy
array of bytes) is modelled as a list of `H` rows, each a list of `W`
pixels, each a list of `C` channel values.
-/

abbrev Pixel := List Int

abbrev Image := List (List Pixel)

abbrev Plane := List (List Int)

/-- Fancy indexing `pixel[channels]` of one pixel: values at the requested
channel indices, in order, repeats allowed; an out-of-range index is an
`IndexError` (`none`). -/
def extractPixel (pix : Pixel) (chs : List Nat) : Option Pixel :=
  chs.mapM (fun c => pix[c]?)

/-- Embeds `image[:, :, channels]` followed by `np.ascontiguousarray`: per-pixel
channel extraction over the whole image. -/
def extractImage (img : Image) (chs : List Nat) : Option Image :=
  img.mapM (fun row => row.mapM (fun pix => extractPixel pix chs))

/-- The channel count (third axis extent) of an image. -/
def channelCount (img : Image) : Nat :=
  ((img.headD []).headD []).length

/-- Embeds `cv2.split(sub_image)`: one `H × W` plane per channel of `sub_image`. -/
def splitChannels (img : Image) : List Plane :=
  (List.range (channelCount img)).map
    (fun k => img.map (fun row => row.map (fun pix => pix.getD k 0)))

/-- Embeds `output_img[:, :, idx] = channel`: writes a full `H × W` plane into
channel `idx`.  Numpy raises unless the plane's shape matches the image's
first two axes and `idx` is in channel range (`none` here). -/
def writeChannel (img : Image) (idx : Nat) (pl : Plane) : Option Image :=
  if idx < channelCount img ∧ pl.length = img.length ∧
      ((pl.zip img).all fun rp => rp.1.length = rp.2.length) then
    some ((img.zip pl).map (fun rp => (rp.1.zip rp.2).map (fun pv => pv.1.set idx pv.2)))
  else
    none

/-- Embeds `for idx, channel in zip(self.channels, transformed_channels): output_img[:, :, idx] = channel`. -/
def writeChannels : Image → List (Nat × Plane) → Option Image
  | img, [] => some img
  | img, (i, pl) :: rest =>
    match writeChannel img i pl with
    | some img' => writeChannels img' rest
    | none => none

/-- The single-channel plane of an image at channel `c` (what `cv2.split`
produces for a channel that was extracted unchanged). -/
def planeOf (img : Image) (c : Nat) : Plane :=
  img.map (fun row => row.map (fun pix => pix.getD c 0))

/-- The data bundle seen by `SelectiveChannelTransform.__call__`: the `image`
field plus all remaining fields (opaque payloads, modelled as an association
list). -/
structure SCTBundle where
  image : Image
  rest : List (String × Int)
deriving DecidableEq

/-- Embeds `SelectiveChannelTransform` state after `__init__`. -/
structure SCTC where
  transforms : List (Tr Image)
  channels : List Nat
  p : ℚ
  replay_mode : Bool

/-- Embeds `SelectiveChannelTransform.__init__(transforms, channels, p)`. -/
def sctInit (ts : List (Tr Image)) (channels : List Nat) (p : ℚ) : SCTC :=
  ⟨ts, channels, p, false⟩

/-- Embeds `SelectiveChannelTransform.__call__(*args, force_apply=force, **data)`.
On a passing gate: extract the selected channels, run every child on the
sub-image alone (`sub_image = t(image=sub_image)["image"]`, unforced),
split the result into planes, copy the input image and write each plane
back at its original channel index.  Only `data["image"]` is reassigned. -/
def sctCall (s : SCTC) (nargs : Nat) (force : Bool) (gate : ℚ)
    (coins : Nat → ℚ) (b : SCTBundle) : Except String SCTBundle :=
  if force = true ∨ gate < s.p then
    match extractImage b.image s.channels with
    | none => .error "IndexError: index is out of bounds for axis 2"
    | some sub0 =>
      let sub := callSeq s.transforms coins sub0
      let planes := splitChannels sub
      match writeChannels b.image (s.channels.zip planes) with
      | none => .error "ValueError: could not broadcast input array"
      | some out => .ok { b with image := out }
  else
    .ok b

/-
Python dicts as association lists (insertion order preserved).
-/

/-- Embeds `d.get(k)` / `d[k]` lookup. -/
def lookupAssoc (d : List (String × String)) (k : String) : Option String :=
  (d.find? (fun kv => kv.1 = k)).map (fun kv => kv.2)

/-- Embeds `d[k] = v`: overwrite in place if the key exists, else append. -/
def dictSet (d : List (String × String)) (k : String) (v : String) :
    List (String × String) :=
  if d.any (fun kv => kv.1 = k) then
    d.map (fun kv => if kv.1 = k then (k, v) else kv)
  else
    d ++ [(k, v)]

/-- Embeds `d.update(new)`. -/
def dictUpdate (d new : List (String × String)) : List (String × String) :=
  new.foldl (fun d kv => dictSet d kv.1 kv.2) d

/-- The mapping update performed by `BaseCompose.add_targets` on the
container's own `_additional_targets`: first every new pair is checked
against the existing mapping (a key already present with a different
canonical target is a `ValueError`), then `_additional_targets.update(...)`
runs.  (The method afterwards propagates the same mapping to children and
processors and recomputes `_available_keys`, which leaves `cur` itself
untouched.) -/
def addTargetsMap (cur new : List (String × String)) :
    Except String (List (String × String)) :=
  if new.any (fun kv =>
      match lookupAssoc cur kv.1 with
      | some v0 => v0 ≠ kv.2
      | none => false) then
    .error "ValueError: Trying to overwrite existed additional targets."
  else
    .ok (dictUpdate cur new)

/-
`Compose`: bundle payloads, `_check_args`, `preprocess`, `__call__`.
Only the data needed by the argument checks is modelled: a numpy array is
represented by its shape, a sequence of arrays by their shapes.
-/

/-- One bundle payload as classified by `Compose._check_args`. -/
inductive PyData where
  /-- a numpy array with the given shape -/
  | arr : List Nat → PyData
  /-- a sequence of numpy arrays with the given shapes -/
  | seq : List (List Nat) → PyData
  /-- Python `None` -/
  | pynone : PyData
  /-- any other payload (labels, params containers, ...) -/
  | other : PyData
deriving DecidableEq

/-- The keyword-argument bundle of a `Compose` call. -/
abbrev CBundle := List (String × PyData)

def AVAILABLE_KEYS : List String := ["image", "mask", "masks", "bboxes", "keypoints"]

def MASK_KEYS : List String := ["mask", "masks"]

def IMAGE_KEYS : List String := ["image", "images"]

/-- Modelled from the spec: `NUM_MULTI_CHANNEL_DIMENSIONS` is imported from
`core.types`, which is not part of the embedded source file.  The spec's
masks rule — "a single array with 3 or 4 axes (axis count 4 ⇒ per-item extent
is axes 1–2, i.e. a leading batch axis)" — fixes the value compared against
`data.ndim` in `_check_masks_data` to 4. -/
def NUM_MULTI_CHANNEL_DIMENSIONS : Nat := 4

/-- Embeds `Compose._check_single_data`: `image`/`mask` must be a single array;
extent is `shape[:2]`. -/
def checkSingleData (name : String) (d : PyData) : Except String (List Nat) :=
  match d with
  | .arr shape => .ok (shape.take 2)
  | _ => .error ("TypeError: " ++ name ++ " must be numpy array type")

/-- Embeds `Compose._check_masks_data`. -/
def checkMasksData (name : String) (d : PyData) : Except String (List Nat) :=
  match d with
  | .arr shape =>
    if shape.length = 3 ∨ shape.length = 4 then
      .ok (if shape.length = NUM_MULTI_CHANNEL_DIMENSIONS
           then (shape.drop 1).take 2 else shape.take 2)
    else
      .error ("TypeError: " ++ name ++ " must be a 3D or 4D numpy array")
  | .seq shapes =>
    if shapes.all (fun s => s.length = 2 ∨ s.length = 3) then
      .ok ((shapes.headD []).take 2)
    else
      .error ("TypeError: All masks in " ++ name ++ " must be 2D or 3D numpy arrays")
  | _ => .error ("TypeError: " ++ name ++ " must be either a numpy array or a sequence of numpy arrays")

/-- Embeds `Compose._check_multi_data`: `images` must be a sequence of arrays;
extent is the first element's `shape[:2]`. -/
def checkMultiData (name : String) (d : PyData) : Except String (List Nat) :=
  match d with
  | .seq shapes => .ok ((shapes.headD []).take 2)
  | _ => .error ("TypeError: " ++ name ++ " must be list of numpy arrays")

/-- Embeds `Compose._check_bbox_keypoint_params`: processors are modelled by their
presence flags (the dictionary keyed by kind holds at most one per kind). -/
def checkBboxKeypointParams (internal : String) (hasBbox hasKp : Bool) :
    Except String Unit :=
  if internal = "bboxes" ∧ hasBbox = false then
    .error "ValueError: bbox_params must be specified for bbox transformations"
  else if internal = "keypoints" ∧ hasKp = false then
    .error "ValueError: keypoints_params must be specified for keypoint transformations"
  else
    .ok ()

/-- The guard `data is not None and len(data)` applied to a `masks`/`images`
payload (`len` of an array is its first axis; `len` of an unsized payload is
a `TypeError`). -/
def multiGuard (d : PyData) : Except String Bool :=
  match d with
  | .pynone => .ok false
  | .arr shape => .ok (decide (shape.headD 0 ≠ 0))
  | .seq shapes => .ok (decide (shapes ≠ []))
  | .other => .error "TypeError: object has no len()"

/-- The loop of `Compose._check_args`: classify each field by its canonical
name (after the additional-targets remap), collect the height/width extents
of `image`/`mask`/`masks`/`images` fields, and check the bbox/keypoint
processor requirements, in bundle order. -/
def collectShapes (hasBbox hasKp : Bool) (targets : List (String × String)) :
    CBundle → Except String (List (List Nat))
  | [] => .ok []
  | (k, v) :: restKw => do
    let internal := (lookupAssoc targets k).getD k
    let ext? ←
      if internal = "image" ∨ internal = "mask" then do
        let e ← checkSingleData k v
        pure (some e)
      else if internal = "masks" ∨ internal = "images" then do
        let g ← multiGuard v
        if g then do
          let e ← (if internal = "masks" then checkMasksData k v else checkMultiData k v)
          pure (some e)
        else
          pure none
      else
        pure none
    checkBboxKeypointParams internal hasBbox hasKp
    let restShapes ← collectShapes hasBbox hasKp targets restKw
    match ext? with
    | some e => .ok (e :: restShapes)
    | none => .ok restShapes

/-- The `ValueError` message of `Compose._check_shapes`. -/
def composeShapeErrorMsg : String :=
  "Height and Width of image, mask or masks should be equal. You can disable shapes check " ++
  "by setting a parameter is_check_shapes=False of Compose class (do it only if you are sure " ++
  "about your data consistency)."

/-- Embeds `Compose._check_shapes(shapes, is_check_shapes)`. -/
def checkShapes (shapes : List (List Nat)) (is_check_shapes : Bool) :
    Except String Unit :=
  if is_check_shapes = true ∧ shapes ≠ [] ∧
      shapes.count (shapes.headD []) ≠ shapes.length then
    .error composeShapeErrorMsg
  else
    .ok ()

/-- Embeds `Compose._check_args(**kwargs)`. -/
def checkArgs (hasBbox hasKp : Bool) (targets : List (String × String))
    (is_check_shapes : Bool) (kwargs : CBundle) : Except String Unit := do
  let shapes ← collectShapes hasBbox hasKp targets kwargs
  checkShapes shapes is_check_shapes

/-- Embeds `Compose` state after `__init__`.  The auxiliary processors (external
`BboxProcessor`/`KeypointsProcessor`) are modelled by their presence flags;
their behavioural hooks are passed to `composeCall` as function arguments. -/
structure ComposeC where
  transforms : List (Tr CBundle)
  p : ℚ
  strict : Bool
  is_check_args : Bool
  is_check_shapes : Bool
  main_compose : Bool
  return_params : Bool
  save_key : String
  hasBboxProc : Bool
  hasKpProc : Bool
  additional_targets : List (String × String)
  available_keys : List String
  replay_mode : Bool

/-- Embeds `Compose.__init__`.  Processor construction/validation
(`BboxParams`/`KeypointParams`, `ensure_transforms_valid`) is external;
`hasBbox`/`hasKp` record which processors were configured.  The
`_available_keys` computation of `_set_keys` draws each child's
`available_keys`/`targets_as_params` from its `keys` field; the processors'
contribution (`labels` plus their `data_fields`; `label_fields` is external
configuration and is not modelled) follows the spec's description of the
available-keys set. -/
def composeInit (ts : List (Tr CBundle)) (hasBbox hasKp : Bool)
    (additional_targets : List (String × String)) (p : ℚ)
    (is_check_shapes : Bool) (strict : Bool) (return_params : Bool)
    (save_key : String) : ComposeC :=
  let avail := additional_targets.map Prod.fst ++ (ts.map Tr.keys).flatten
  let avail := avail ++
    (if hasBbox = true ∨ hasKp = true then
      ["labels"] ++ (if hasBbox then ["bboxes"] else []) ++ (if hasKp then ["keypoints"] else [])
    else [])
  let avail := if ts.isEmpty then avail ++ AVAILABLE_KEYS else avail
  let avail := if return_params then avail ++ [save_key] else avail
  { transforms := ts
    p := p
    strict := strict
    is_check_args := true
    is_check_shapes := is_check_shapes
    main_compose := true
    return_params := return_params
    save_key := save_key
    hasBboxProc := hasBbox
    hasKpProc := hasKp
    additional_targets := additional_targets
    available_keys := avail
    replay_mode := false }

/-- Embeds `d[k] = v` on a bundle. -/
def bundleSet (d : CBundle) (k : String) (v : PyData) : CBundle :=
  if d.any (fun kv => kv.1 = k) then
    d.map (fun kv => if kv.1 = k then (k, v) else kv)
  else
    d ++ [(k, v)]

/-- Embeds `Compose.preprocess(data)`.  `ensureValid` and `procPre` stand for the
external processors' `ensure_data_valid` and `preprocess` hooks. -/
def composePreprocess (c : ComposeC) (ensureValid : CBundle → Except String Unit)
    (procPre : CBundle → CBundle) (data : CBundle) : Except String CBundle := do
  if c.strict then
    match data.find? (fun kv =>
        !(c.available_keys.contains kv.1 || MASK_KEYS.contains kv.1 ||
          IMAGE_KEYS.contains kv.1)) with
    | some kv => .error ("ValueError: Key " ++ kv.1 ++ " is not in available keys.")
    | none => pure ()
  if c.is_check_args then
    checkArgs c.hasBboxProc c.hasKpProc c.additional_targets c.is_check_shapes data
  if c.main_compose then do
    ensureValid data
    pure (procPre data)
  else
    pure data

/-- Embeds `Compose.postprocess(data)`; `procPost` stands for the processors'
`postprocess` hooks. -/
def composePostprocess (c : ComposeC) (procPost : CBundle → CBundle)
    (data : CBundle) : CBundle :=
  if c.main_compose then procPost data else data

/-- Embeds `Compose.__call__(*args, force_apply=force, **data)`.  `nargs` counts the
positional arguments; `postCheck` stands for `check_data_post_transform`. -/
def composeCall (c : ComposeC) (ensureValid : CBundle → Except String Unit)
    (procPre procPost : CBundle → CBundle) (postCheck : CBundle → CBundle)
    (nargs : Nat) (force : Bool) (gate : ℚ) (coins : Nat → ℚ)
    (data : CBundle) : Except String CBundle :=
  if nargs ≠ 0 then
    .error "KeyError: You have to pass data to augmentations as named arguments, for example: aug(image=image)"
  else
    let data := if c.return_params = true ∧ c.main_compose = true
                then bundleSet data c.save_key PyData.other else data
    if force = true ∨ gate < c.p then do
      let data ← composePreprocess c ensureValid procPre data
      let data := callSeqPost c.transforms coins postCheck data
      .ok (composePostprocess c procPost data)
    else
      .ok data

/-
`ReplayCompose.fill_applied`: the filled replay tree.  A serialized node
either carries a `transforms` list (container node) or not (leaf transform
node); every node carries a `params` entry filled in by `fill_with_params`.
-/

mutual
/-- A node of the filled replay tree (`get_dict_with_id` after
`fill_with_params`): its `params` entry and, for container nodes, the
serialized `transforms` children. -/
inductive RTree where
  | leaf : Option String → RTree
  | comp : Option String → RTreeList → RTree

/-- The `transforms` list of a container node. -/
inductive RTreeList where
  | nil : RTreeList
  | cons : RTree → RTreeList → RTreeList
end

mutual
/-- The `applied` flag computed by `ReplayCompose.fill_applied`: for a node
with a `transforms` entry it is `any(applied of children)`; for a leaf it is
`params is not None`. -/
def fillApplied : RTree → Bool
  | .leaf params => params.isSome
  | .comp _ ts => fillAppliedList ts

/-- Embeds `any(self.fill_applied(t) for t in serialized["transforms"])`. -/
def fillAppliedList : RTreeList → Bool
  | .nil => false
  | .cons t ts => fillApplied t || fillAppliedList ts
end

/-- The `params` entry of a node. -/
def RTree.params : RTree → Option String
  | .leaf p => p
  | .comp p _ => p

/-- The `transforms` children of a node (empty for leaves). -/
def RTree.children : RTree → List RTree
  | .leaf _ => []
  | .comp _ ts => RTreeList.toList ts
where
  RTreeList.toList : RTreeList → List RTree
    | .nil => []
    | .cons t ts => t :: RTreeList.toList ts

mutual
/-- Does every container node of the tree carry `params = None`?  (In a tree
produced by `ReplayCompose.__call__` this always holds: `fill_with_params`
looks node ids up in the record written under the save key, and only leaf
transforms — never containers — record parameters there.) -/
def compParamsNone : RTree → Bool
  | .leaf _ => true
  | .comp p ts => p.isNone && compParamsNoneList ts

def compParamsNoneList : RTreeList → Bool
  | .nil => true
  | .cons t ts => compParamsNone t && compParamsNoneList ts
end

mutual
/-- The claim's per-node property, checked at every node of the tree:
`applied = (own params present) or (some child applied)`. -/
def appliedOkAll : RTree → Bool
  | .leaf params => (fillApplied (.leaf params) ==
      (params.isSome || false))
  | .comp params ts => (fillApplied (.comp params ts) ==
      (params.isSome || fillAppliedList ts)) && appliedOkAllList ts

def appliedOkAllList : RTreeList → Bool
  | .nil => true
  | .cons t ts => appliedOkAll t && appliedOkAllList ts
end

/-
Theorems.
-/

theorem exceptBindErr {ε α β : Type} (e : ε) (f : α → Except ε β) :
    (do let x ← (Except.error e : Except ε α); f x) = .error e := rfl

theorem exceptBindOk {ε α β : Type} (a : α) (f : α → Except ε β) :
    (do let x ← (Except.ok a : Except ε α); f x) = f a := rfl

theorem normalizePs_zero (ps : List ℚ) (hne : ps ≠ []) (hz : ps.sum = 0) :
    normalizePs ps = .error "ZeroDivisionError: float division by zero" := by
  simp [normalizePs, hne, hz]

/-- C9: constructing `OneOf` or `SomeOf` with a non-empty child list all of
whose probabilities are zero raises `ZeroDivisionError` during weight
normalization in `__init__`, so no container value is ever produced. -/
theorem oneOf_someOf_all_zero_p_init_raises {α : Type} (ts : List (Tr α)) (p : ℚ)
    (n : Nat) (replace : Bool) (hne : ts ≠ []) (hz : ∀ t ∈ ts, t.p = 0) :
    oneOfInit ts p = .error "ZeroDivisionError: float division by zero" ∧
    someOfInit ts n replace p = .error "ZeroDivisionError: float division by zero" := by
  have hsum : (ts.map Tr.p).sum = 0 := by
    apply List.sum_eq_zero
    intro x hx
    obtain ⟨t, ht, rfl⟩ := List.mem_map.mp hx
    exact hz t ht
  have hne' : ts.map Tr.p ≠ [] := by
    simpa using hne
  have hfail := normalizePs_zero (ts.map Tr.p) hne' hsum
  constructor
  · rw [oneOfInit, hfail, exceptBindErr]
  · rw [someOfInit, hfail, exceptBindErr]

/-- C9 witness. -/
theorem oneOf_someOf_all_zero_p_init_raises_witness :
    ([(⟨0, id, []⟩ : Tr Int)] ≠ [] ∧ ∀ t ∈ [(⟨0, id, []⟩ : Tr Int)], t.p = 0) ∧
    oneOfInit [(⟨0, id, []⟩ : Tr Int)] 1 =
      .error "ZeroDivisionError: float division by zero" ∧
    someOfInit [(⟨0, id, []⟩ : Tr Int)] 1 true 1 =
      .error "ZeroDivisionError: float division by zero" :=
  ⟨⟨by simp, by simp⟩,
    oneOf_someOf_all_zero_p_init_raises [⟨0, id, []⟩] 1 1 true (by simp) (by simp)⟩

/-- C4: `OneOf.__init__` normalizes the children's probabilities into
`child.p / Σ child.p`; on a gated non-replay call the drawn child — and only
it — is applied with `force_apply=True` (so its effect `act` runs
unconditionally), and an un-gated call returns the bundle unchanged. -/
theorem oneOf_weights_one_child (α : Type) (ts : List (Tr α)) (p : ℚ) (o : OneOfC α)
    (h : oneOfInit ts p = .ok o) :
    o.transforms_ps = ts.map (fun t => t.p / (ts.map Tr.p).sum) ∧
    o.transforms = ts ∧ o.replay_mode = false ∧ o.p = p ∧
    (∀ nargs force gate coins idx t d, o.transforms_ps ≠ [] →
        (force = true ∨ gate < o.p) → ts[idx]? = some t →
        oneOfCall o nargs force gate coins idx d = .ok (t.act d)) ∧
    (∀ nargs gate coins idx d, ¬gate < o.p →
        oneOfCall o nargs false gate coins idx d = .ok d) := by
  have ho : o = ⟨ts, p, false, (ts.map Tr.p).map (fun t => t / (ts.map Tr.p).sum)⟩ := by
    by_cases hc : ts.map Tr.p ≠ [] ∧ (ts.map Tr.p).sum = 0
    · rw [oneOfInit, normalizePs_zero _ hc.1 hc.2, exceptBindErr] at h
      exact absurd h (by simp)
    · rw [oneOfInit, normalizePs, if_neg hc, exceptBindOk] at h
      injection h with h'
      exact h'.symm
  subst ho
  refine ⟨by rw [List.map_map]; rfl, rfl, rfl, rfl, ?_, ?_⟩
  · intro nargs force gate coins idx t d hps hgate hidx
    simp only [oneOfCall, if_neg (by simp : ¬(false = true)), hidx]
    rw [if_pos ⟨hps, hgate⟩]
    simp [Tr.call]
  · intro nargs gate coins idx d hgate
    simp only [oneOfCall]
    rw [if_neg (by simp), if_neg (by simp [hgate])]

/-- C4 witness. -/
theorem oneOf_weights_one_child_witness :
    oneOfCall (⟨[⟨1, fun x => x + 1, []⟩], 1/2, false, [1]⟩ : OneOfC Int)
      0 true 0 (fun _ => 0) 0 5 = .ok 6 := by
  have h : oneOfInit [(⟨1, fun x => x + 1, []⟩ : Tr Int)] (1/2) =
      .ok ⟨[⟨1, fun x => x + 1, []⟩], 1/2, false, [1]⟩ := by
    rw [oneOfInit, normalizePs, if_neg (by norm_num), exceptBindOk]
    norm_num
  exact (oneOf_weights_one_child Int [⟨1, fun x => x + 1, []⟩] (1/2) _ h).2.2.2.2.1
    0 true 0 (fun _ => 0) 0 ⟨1, fun x => x + 1, []⟩ 5 (by simp) (Or.inl rfl) rfl

theorem lookupAssoc_any (d : List (String × String)) (k v : String)
    (h : lookupAssoc d k = some v) : d.any (fun kv => kv.1 = k) = true := by
  rw [List.any_eq_true]
  rw [lookupAssoc] at h
  rcases ho : d.find? (fun kv => kv.1 = k) with _ | kv
  · rw [ho] at h; simp at h
  · refine ⟨kv, List.mem_of_find?_eq_some ho, ?_⟩
    exact @List.find?_some (String × String) (fun kv => decide (kv.1 = k)) kv d ho

theorem lookupAssoc_uniq (d : List (String × String)) (k v : String)
    (hnd : (d.map Prod.fst).Nodup) (h : lookupAssoc d k = some v) :
    ∀ kv ∈ d, kv.1 = k → kv.2 = v := by
  induction d with
  | nil => simp
  | cons kv0 rest ih =>
    have hnd' : (rest.map Prod.fst).Nodup := (List.nodup_cons.mp hnd).2
    have hk0 : kv0.1 ∉ rest.map Prod.fst := (List.nodup_cons.mp hnd).1
    intro kv hm hkk
    by_cases hk : kv0.1 = k
    · rw [lookupAssoc, List.find?_cons_of_pos _ (by simpa using hk)] at h
      simp only [Option.map_some'] at h
      injection h with h2
      rcases List.mem_cons.mp hm with rfl | hmr
      · exact h2
      · exfalso
        apply hk0
        rw [hk, ← hkk]
        exact List.mem_map_of_mem Prod.fst hmr
    · rw [lookupAssoc, List.find?_cons_of_neg _ (by simpa using hk)] at h
      rcases List.mem_cons.mp hm with rfl | hmr
      · exact absurd hkk hk
      · exact ih hnd' h kv hmr hkk

theorem dictSet_self (d : List (String × String)) (k v : String)
    (hnd : (d.map Prod.fst).Nodup) (h : lookupAssoc d k = some v) :
    dictSet d k v = d := by
  have huniq := lookupAssoc_uniq d k v hnd h
  rw [dictSet, if_pos (lookupAssoc_any d k v h)]
  have hcong : ∀ kv ∈ d, (if kv.1 = k then (k, v) else kv) = id kv := by
    intro kv hm
    rcases kv with ⟨a, b⟩
    by_cases hk : a = k
    · have hb : b = v := huniq (a, b) hm hk
      simp [hk, hb]
    · simp [hk]
  rw [List.map_congr_left hcong, List.map_id]

theorem dictUpdate_fix (cur : List (String × String))
    (hnd : (cur.map Prod.fst).Nodup) :
    ∀ new, (∀ kv ∈ new, lookupAssoc cur kv.1 = some kv.2) →
      dictUpdate cur new = cur := by
  intro new
  induction new with
  | nil => intro _; rfl
  | cons kv rest ih =>
    intro hall
    have h0 : dictSet cur kv.1 kv.2 = cur :=
      dictSet_self cur kv.1 kv.2 hnd (hall kv (List.mem_cons_self kv rest))
    show (kv :: rest).foldl (fun d kv => dictSet d kv.1 kv.2) cur = cur
    rw [List.foldl_cons, h0]
    exact ih (fun kv2 hm => hall kv2 (List.mem_cons_of_mem kv hm))

/-- C8: `add_targets` with a key already registered under a different
canonical target raises `ValueError`; re-registering every pair with its
existing canonical target succeeds and leaves `_additional_targets`
unchanged. -/
theorem addTargets_conflict_noop (cur new : List (String × String)) (k v v0 : String)
    (hnd : (cur.map Prod.fst).Nodup) :
    ((k, v) ∈ new → lookupAssoc cur k = some v0 → v0 ≠ v →
      addTargetsMap cur new =
        .error "ValueError: Trying to overwrite existed additional targets.") ∧
    ((∀ kv ∈ new, lookupAssoc cur kv.1 = some kv.2) →
      addTargetsMap cur new = .ok cur) := by
  constructor
  · intro hmem hlook hne
    rw [addTargetsMap, if_pos]
    rw [List.any_eq_true]
    exact ⟨(k, v), hmem, by simp [hlook, hne]⟩
  · intro hall
    have hni : ¬new.any (fun kv =>
        match lookupAssoc cur kv.1 with
        | some v0 => v0 ≠ kv.2
        | none => false) = true := by
      rw [List.any_eq_true]
      rintro ⟨kv, hm, hpred⟩
      rw [hall kv hm] at hpred
      simp at hpred
    rw [addTargetsMap, if_neg hni]
    exact congrArg Except.ok (dictUpdate_fix cur hnd new hall)

/-- C8 witness. -/
theorem addTargets_conflict_noop_witness :
    addTargetsMap [("image2", "image")] [("image2", "mask")] =
      .error "ValueError: Trying to overwrite existed additional targets." ∧
    addTargetsMap [("image2", "image")] [("image2", "image")] = .ok [("image2", "image")] :=
  ⟨(addTargets_conflict_noop [("image2", "image")] [("image2", "mask")]
      "image2" "mask" "image" (by decide)).1 (by decide) (by decide) (by decide),
    (addTargets_conflict_noop [("image2", "image")] [("image2", "image")]
      "image2" "image" "image" (by decide)).2 (by decide)⟩

theorem collectShapes_checkArgs (hasBbox hasKp : Bool)
    (targets : List (String × String)) (is_check_shapes : Bool) (kwargs : CBundle)
    (shapes : List (List Nat)) (h : collectShapes hasBbox hasKp targets kwargs = .ok shapes) :
    checkArgs hasBbox hasKp targets is_check_shapes kwargs =
      checkShapes shapes is_check_shapes := by
  rw [checkArgs, h, exceptBindOk]

/-- C6: with `is_check_shapes=True`, whenever `_check_args` collected at
least one height/width extent and the collected extents are not all pairwise
equal, `Compose._check_args` raises the `ValueError` whose message names the
`is_check_shapes` toggle; with `is_check_shapes=False` the same bundle
passes the check. -/
theorem checkArgs_shape_mismatch (hasBbox hasKp : Bool)
    (targets : List (String × String)) (kwargs : CBundle) (shapes : List (List Nat))
    (h : collectShapes hasBbox hasKp targets kwargs = .ok shapes)
    (hne : shapes ≠ []) (hmm : ¬shapes.Pairwise (· = ·)) :
    checkArgs hasBbox hasKp targets true kwargs = .error composeShapeErrorMsg ∧
    (∃ s1 s2, composeShapeErrorMsg = s1 ++ "is_check_shapes=False" ++ s2) ∧
    checkArgs hasBbox hasKp targets false kwargs = .ok () := by
  have hcount : shapes.count (shapes.headD []) ≠ shapes.length := by
    intro hc
    apply hmm
    have hall : ∀ b ∈ shapes, shapes.headD [] = b := List.count_eq_length.mp hc
    exact List.pairwise_of_forall_mem_list
      (fun a ha b hb => (hall a ha).symm.trans (hall b hb))
  refine ⟨?_, ⟨"Height and Width of image, mask or masks should be equal. " ++
    "You can disable shapes check by setting a parameter ",
    " of Compose class (do it only if you are sure about your data consistency).",
    by rfl⟩, ?_⟩
  · rw [collectShapes_checkArgs hasBbox hasKp targets true kwargs shapes h,
      checkShapes, if_pos ⟨rfl, hne, hcount⟩]
  · rw [collectShapes_checkArgs hasBbox hasKp targets false kwargs shapes h,
      checkShapes, if_neg (by simp)]

/-- C6 witness: a 10×10 `image` with a 20×20 `mask`. -/
theorem checkArgs_shape_mismatch_witness :
    checkArgs false false [] true
      [("image", .arr [10, 10, 3]), ("mask", .arr [20, 20])] =
      .error composeShapeErrorMsg ∧
    checkArgs false false [] false
      [("image", .arr [10, 10, 3]), ("mask", .arr [20, 20])] = .ok () :=
  have h := checkArgs_shape_mismatch false false []
    [("image", .arr [10, 10, 3]), ("mask", .arr [20, 20])] [[10, 10], [20, 20]]
    rfl (by decide) (by decide)
  ⟨h.1, h.2.2⟩

mutual
theorem appliedOk_aux : ∀ t : RTree, compParamsNone t = true → appliedOkAll t = true
  | .leaf params, _ => by
    simp [appliedOkAll, fillApplied]
  | .comp params ts, h => by
    rw [compParamsNone, Bool.and_eq_true] at h
    have hts := appliedOk_auxList ts h.2
    rw [appliedOkAll, hts, Bool.and_true]
    have hp : params = none := Option.isNone_iff_eq_none.mp h.1
    subst hp
    simp [fillApplied]

theorem appliedOk_auxList : ∀ ts : RTreeList, compParamsNoneList ts = true →
    appliedOkAllList ts = true
  | .nil, _ => rfl
  | .cons t ts, h => by
    rw [compParamsNoneList, Bool.and_eq_true] at h
    rw [appliedOkAllList, appliedOk_aux t h.1, appliedOk_auxList ts h.2]
    rfl
end

/-- C7: on a filled replay tree in which container nodes carry no params of
their own (as `fill_with_params` always produces, since only leaf transforms
record parameters under the save key), the `applied` flag computed by
`ReplayCompose.fill_applied` satisfies, at every node, `applied ↔ own params
present ∨ some child applied`. -/
theorem fillApplied_ok (t : RTree) (h : compParamsNone t = true) :
    appliedOkAll t = true :=
  appliedOk_aux t h

/-- C7 witness: a container with one applied leaf and one skipped leaf. -/
theorem fillApplied_ok_witness :
    compParamsNone (.comp none (.cons (.leaf (some "params0"))
      (.cons (.leaf none) .nil))) = true ∧
    appliedOkAll (.comp none (.cons (.leaf (some "params0"))
      (.cons (.leaf none) .nil))) = true :=
  ⟨rfl, fillApplied_ok (.comp none (.cons (.leaf (some "params0"))
    (.cons (.leaf none) .nil))) rfl⟩

theorem oneOfInit_ok {α : Type} (ts : List (Tr α)) (p : ℚ) (o : OneOfC α)
    (h : oneOfInit ts p = .ok o) :
    o = ⟨ts, p, false, (ts.map Tr.p).map (fun t => t / (ts.map Tr.p).sum)⟩ := by
  by_cases hc : ts.map Tr.p ≠ [] ∧ (ts.map Tr.p).sum = 0
  · rw [oneOfInit, normalizePs_zero _ hc.1 hc.2, exceptBindErr] at h
    exact absurd h (by simp)
  · rw [oneOfInit, normalizePs, if_neg hc, exceptBindOk] at h
    injection h with h'
    exact h'.symm

theorem someOfInit_ok {α : Type} (ts : List (Tr α)) (n : Nat) (replace : Bool)
    (p : ℚ) (s' : SomeOfC α) (w' : Bool)
    (h : someOfInit ts n replace p = .ok (s', w')) :
    s' = ⟨ts, if replace = false ∧ n > ts.length then ts.length else n, replace, p,
        false, (ts.map Tr.p).map (fun t => t / (ts.map Tr.p).sum), id⟩ ∧
    w' = decide (replace = false ∧ n > ts.length) := by
  by_cases hc : ts.map Tr.p ≠ [] ∧ (ts.map Tr.p).sum = 0
  · rw [someOfInit, normalizePs_zero _ hc.1 hc.2, exceptBindErr] at h
    exact absurd h (by simp)
  · rw [someOfInit, normalizePs, if_neg hc, exceptBindOk] at h
    injection h with h'
    exact ⟨(congrArg Prod.fst h').symm, (congrArg Prod.snd h').symm⟩

/-- C1 counterexample: an `OneOrOther` built from two children with `p=0`,
whose second child increments the (integer-modelled) bundle, is called with
`force_apply=False` and a gate coin of `1/2`; the output bundle is `1`, not
the input `0`: `OneOrOther.__call__` has no no-op branch — when
`random.random() < self.p` fails it force-applies the second child. -/
theorem p_zero_noop_counterexample :
    oneOrOtherInit (some (⟨1, id, []⟩ : Tr Int)) (some ⟨1, fun x => x + 1, []⟩) none 0 =
      .ok (⟨[⟨1, id, []⟩, ⟨1, fun x => x + 1, []⟩], 0, false⟩, false) ∧
    oneOrOtherCall (⟨[⟨1, id, []⟩, ⟨1, fun x => x + 1, []⟩], 0, false⟩ : OneOrOtherC Int)
      0 false (1/2) (fun _ => 0) 0 ≠ .ok 0 := by
  refine ⟨rfl, ?_⟩
  have : oneOrOtherCall (⟨[⟨1, id, []⟩, ⟨1, fun x => x + 1, []⟩], 0, false⟩ : OneOrOtherC Int)
      0 false (1/2) (fun _ => 0) 0 = .ok 1 := by
    rw [oneOrOtherCall, if_neg (by simp), if_neg (by norm_num)]
    rfl
  rw [this]
  simp

/-- C1 (amended): with `p=0` and `force_apply=False`, `Compose` (under its
default construction), `OneOf`, `SomeOf`, `RandomOrder`, `Sequential` and
`SelectiveChannelTransform` return the bundle unchanged; `OneOrOther`,
however, always force-applies its second child. -/
theorem p_zero_noop_amended {α : Type} (ts : List (Tr α)) (tsc : List (Tr CBundle))
    (tsi : List (Tr Image)) (f s2 : Tr α) (n : Nat) (replace : Bool)
    (chans : List Nat) (ev : CBundle → Except String Unit)
    (pre post pc : CBundle → CBundle) (gate : ℚ) (coins : Nat → ℚ)
    (idx : Nat) (draw : List Nat) (d : α) (db : CBundle) (bi : SCTBundle)
    (hg : 0 ≤ gate) :
    (composeCall (composeInit tsc false false [] 0 true true false "applied_params")
        ev pre post pc 0 false gate coins db = .ok db) ∧
    (∀ o, oneOfInit ts 0 = .ok o →
      oneOfCall o 0 false gate coins idx d = .ok d) ∧
    (∀ s' w', someOfInit ts n replace 0 = .ok (s', w') →
      someOfCall s' 0 false gate coins draw d = .ok d) ∧
    (∀ s' w', someOfInit ts n replace 0 = .ok (s', w') →
      randomOrderCall s' 0 false gate coins draw d = .ok d) ∧
    (sequentialCall (sequentialInit ts 0) 0 false gate coins d = .ok d) ∧
    (sctCall (sctInit tsi chans 0) 0 false gate coins bi = .ok bi) ∧
    (∀ o w', oneOrOtherInit (some f) (some s2) none 0 = .ok (o, w') →
      oneOrOtherCall o 0 false gate coins d = .ok (s2.act d)) := by
  have hlt : ¬gate < (0 : ℚ) := not_lt.mpr hg
  have hng : ¬(false = true ∨ gate < (0 : ℚ)) := by
    rintro (h1 | h2)
    · exact absurd h1 (by simp)
    · exact hlt h2
  refine ⟨?_, ?_, ?_, ?_, ?_, ?_, ?_⟩
  · rw [composeCall, if_neg (by simp), composeInit]
    simp only
    rw [if_neg hng, if_neg (by simp)]
  · intro o ho
    rw [oneOfInit_ok ts 0 o ho, oneOfCall]
    rw [if_neg (by simp), if_neg (fun hc => hng hc.2)]
  · intro s' w' hs
    rw [(someOfInit_ok ts n replace 0 s' w' hs).1, someOfCall]
    rw [if_neg (by simp), if_neg (fun hc => hng hc.2)]
  · intro s' w' hs
    rw [(someOfInit_ok ts n replace 0 s' w' hs).1, randomOrderCall]
    rw [if_neg (by simp), if_neg (fun hc => hng hc.2)]
  · rw [sequentialCall, sequentialInit]
    rw [if_neg (by rintro (h | hc) <;> [simp at h; exact hng hc])]
  · rw [sctCall, sctInit]
    rw [if_neg hng]
  · intro o w' ho
    rw [show oneOrOtherInit (some f) (some s2) none (0:ℚ) =
        .ok ((⟨[f, s2], 0, false⟩ : OneOrOtherC α), false) from rfl] at ho
    injection ho with ho'
    have ho2 : o = ⟨[f, s2], 0, false⟩ := (congrArg Prod.fst ho').symm
    rw [ho2, oneOrOtherCall, if_neg (by simp), if_neg (by simp [hg])]
    rfl

/-- C1 (amended) witness. -/
theorem p_zero_noop_amended_witness :
    sequentialCall (sequentialInit [(⟨1, fun x => x + 1, []⟩ : Tr Int)] 0)
      0 false (1/2) (fun _ => 0) 7 = .ok 7 ∧
    sctCall (sctInit [] [0] 0) 0 false (1/2) (fun _ => 0) ⟨[[[5]]], []⟩ =
      .ok ⟨[[[5]]], []⟩ :=
  have h := p_zero_noop_amended [(⟨1, fun x => x + 1, []⟩ : Tr Int)] [] []
    ⟨1, id, []⟩ ⟨1, id, []⟩ 1 true [0] (fun _ => .ok ()) id id id (1/2) (fun _ => 0)
    0 [] 7 [] ⟨[[[5]]], []⟩ (by norm_num)
  ⟨h.2.2.2.2.1, h.2.2.2.2.2.1⟩

/-- C5 counterexample: an `OneOf` invoked with one positional argument does
not fail — it silently ignores the argument and executes normally, applying
its drawn child (the claim requires an argument-shape error for every
container). -/
theorem positional_args_counterexample :
    oneOfCall (⟨[⟨1, fun x => x + 1, []⟩], 1, false, [1]⟩ : OneOfC Int)
      1 true 0 (fun _ => 0) 0 5 = .ok 6 := by
  rw [oneOfCall, if_neg (by simp), if_pos ⟨by simp, Or.inl rfl⟩]
  rfl

/-- C5 (amended): only `Compose.__call__` rejects positional arguments
(with a `KeyError`); the calls of `OneOf`, `SomeOf`, `RandomOrder`,
`OneOrOther`, `Sequential` and `SelectiveChannelTransform` accept and
silently ignore them — the result is identical to the call without
positional arguments. -/
theorem positional_args_amended {α : Type} (c : ComposeC)
    (ev : CBundle → Except String Unit) (pre post pc : CBundle → CBundle)
    (o : OneOfC α) (s : SomeOfC α) (oo : OneOrOtherC α) (sq : SequentialC α)
    (sct : SCTC) (nargs : Nat) (force : Bool) (gate : ℚ) (coins : Nat → ℚ)
    (idx : Nat) (draw : List Nat) (d : α) (db : CBundle) (bi : SCTBundle)
    (hn : nargs ≠ 0) :
    composeCall c ev pre post pc nargs force gate coins db =
      .error "KeyError: You have to pass data to augmentations as named arguments, for example: aug(image=image)" ∧
    oneOfCall o nargs force gate coins idx d = oneOfCall o 0 force gate coins idx d ∧
    someOfCall s nargs force gate coins draw d = someOfCall s 0 force gate coins draw d ∧
    randomOrderCall s nargs force gate coins draw d =
      randomOrderCall s 0 force gate coins draw d ∧
    oneOrOtherCall oo nargs force gate coins d = oneOrOtherCall oo 0 force gate coins d ∧
    sequentialCall sq nargs force gate coins d = sequentialCall sq 0 force gate coins d ∧
    sctCall sct nargs force gate coins bi = sctCall sct 0 force gate coins bi :=
  ⟨by rw [composeCall, if_pos hn], rfl, rfl, rfl, rfl, rfl, rfl⟩

/-- C5 (amended) witness. -/
theorem positional_args_amended_witness :
    composeCall (composeInit [] false false [] 1 true true false "applied_params")
      (fun _ => .ok ()) id id id 2 true 0 (fun _ => 0) [] =
      .error "KeyError: You have to pass data to augmentations as named arguments, for example: aug(image=image)" ∧
    oneOfCall (⟨[⟨1, fun x => x + 1, []⟩], 1, false, [1]⟩ : OneOfC Int)
      2 true 0 (fun _ => 0) 0 5 =
      oneOfCall (⟨[⟨1, fun x => x + 1, []⟩], 1, false, [1]⟩ : OneOfC Int)
        0 true 0 (fun _ => 0) 0 5 :=
  have h := @positional_args_amended Int
    (composeInit [] false false [] 1 true true false "applied_params")
    (fun _ => .ok ()) id id id ⟨[⟨1, fun x => x + 1, []⟩], 1, false, [1]⟩
    ⟨[], 0, true, 1, false, [], id⟩ ⟨[], 1, false⟩ ⟨[], 1, false, id⟩
    ⟨[], [], 1, false⟩ 2 true 0 (fun _ => 0) 0 [] 5 [] ⟨[], []⟩ (by decide)
  ⟨by exact h.1, h.2.1⟩

theorem applyIdxs_ok {α : Type} (ts : List (Tr α)) (post : α → α) :
    ∀ idxs (d : α), (∀ i ∈ idxs, i < ts.length) →
      ∃ out, applyIdxs ts post idxs d = .ok out := by
  intro idxs
  induction idxs with
  | nil => intro d _; exact ⟨d, rfl⟩
  | cons i rest ih =>
    intro d h
    have hi : i < ts.length := h i (List.mem_cons_self i rest)
    simp only [applyIdxs, List.getElem?_eq_getElem hi]
    exact ih _ (fun j hj => h j (List.mem_cons_of_mem i hj))

theorem sortIdx_perm (draw : List Nat) : (sortIdx draw).Perm draw :=
  List.perm_insertionSort _ draw

theorem sortIdx_sorted (draw : List Nat) : (sortIdx draw).Sorted (· ≤ ·) :=
  List.sorted_insertionSort _ draw

theorem sortIdx_sorted_lt (draw : List Nat) (hnd : draw.Nodup) :
    (sortIdx draw).Sorted (· < ·) := by
  have hnd' : (sortIdx draw).Nodup := (sortIdx_perm draw).nodup_iff.mpr hnd
  exact ((sortIdx_sorted draw).and hnd').imp (fun h => lt_of_le_of_ne h.1 h.2)

theorem sortIdx_eq_of_perm (draw draw2 : List Nat) (hp : draw.Perm draw2) :
    sortIdx draw = sortIdx draw2 :=
  List.eq_of_perm_of_sorted
    ((sortIdx_perm draw).trans (hp.trans (sortIdx_perm draw2).symm))
    (sortIdx_sorted draw) (sortIdx_sorted draw2)

/-- C3: `SomeOf.__init__` with `replace=False` and `n` greater than the
child count clamps `n` to the child count and emits the non-fatal warning;
on a gated non-replay call with a valid without-replacement draw (`n`
distinct in-range indices), the call succeeds and applies exactly the drawn
children in the order of the sorted draw — a strictly increasing (original
container order) enumeration of the drawn set of length `n` — and the
result does not depend on the order in which the indices were drawn. -/
theorem someOf_clamp_sorted_apply {α : Type} (ts : List (Tr α)) (n : Nat) (p : ℚ)
    (s' : SomeOfC α) (w' : Bool) (s : SomeOfC α) (force : Bool) (gate : ℚ)
    (coins : Nat → ℚ) (draw : List Nat) (d : α)
    (hinit : someOfInit ts n false p = .ok (s', w')) (hn : n > ts.length)
    (hrep : s.replay_mode = false) (hps : s.transforms_ps ≠ [])
    (hgate : force = true ∨ gate < s.p) (hnd : draw.Nodup)
    (hlen : draw.length = s.n) (hin : ∀ i ∈ draw, i < s.transforms.length) :
    (s'.n = ts.length ∧ w' = true) ∧
    (someOfCall s 0 force gate coins draw d =
      applyIdxs s.transforms s.postCheck (sortIdx draw) d ∧
      ∃ out, someOfCall s 0 force gate coins draw d = .ok out) ∧
    ((sortIdx draw).Perm draw ∧ (sortIdx draw).Sorted (· < ·) ∧
      (sortIdx draw).length = s.n) ∧
    (∀ draw2, draw.Perm draw2 →
      someOfCall s 0 force gate coins draw d =
        someOfCall s 0 force gate coins draw2 d) := by
  obtain ⟨hs', hw'⟩ := someOfInit_ok ts n false p s' w' hinit
  have hcall : someOfCall s 0 force gate coins draw d =
      applyIdxs s.transforms s.postCheck (sortIdx draw) d := by
    rw [someOfCall, if_neg (by simp [hrep]), if_pos ⟨hps, hgate⟩]
  refine ⟨⟨?_, ?_⟩, ⟨hcall, ?_⟩, ⟨sortIdx_perm draw, sortIdx_sorted_lt draw hnd, ?_⟩, ?_⟩
  · rw [hs']
    simp [hn]
  · rw [hw']
    simp [hn]
  · rw [hcall]
    exact applyIdxs_ok s.transforms s.postCheck (sortIdx draw) d
      (fun i hi => hin i ((sortIdx_perm draw).mem_iff.mp hi))
  · rw [(sortIdx_perm draw).length_eq, hlen]
  · intro draw2 hp2
    rw [hcall, sortIdx_eq_of_perm draw draw2 hp2, someOfCall,
      if_neg (by simp [hrep]), if_pos ⟨hps, hgate⟩]

/-- C3 witness: two children, `n=3` clamps to 2; a gated call with the
unsorted draw `[1, 0]` applies children `0` then `1`. -/
theorem someOf_clamp_sorted_apply_witness :
    (∀ s' w', someOfInit [(⟨1, fun x => x + 1, []⟩ : Tr Int), ⟨1, fun x => x * 10, []⟩]
        3 false 1 = .ok (s', w') → s'.n = 2 ∧ w' = true) ∧
    someOfCall (⟨[(⟨1, fun x => x + 1, []⟩ : Tr Int), ⟨1, fun x => x * 10, []⟩],
        2, false, 1, false, [1/2, 1/2], id⟩ : SomeOfC Int)
      0 true 0 (fun _ => 0) [1, 0] 5 = .ok 60 := by
  have base := someOf_clamp_sorted_apply
    [(⟨1, fun x => x + 1, []⟩ : Tr Int), ⟨1, fun x => x * 10, []⟩] 3 1
    ⟨[(⟨1, fun x => x + 1, []⟩ : Tr Int), ⟨1, fun x => x * 10, []⟩], 2, false, 1,
      false, [1/2, 1/2], id⟩ true
    ⟨[(⟨1, fun x => x + 1, []⟩ : Tr Int), ⟨1, fun x => x * 10, []⟩], 2, false, 1,
      false, [1/2, 1/2], id⟩ true 0 (fun _ => 0) [1, 0] 5
    (by rw [someOfInit, normalizePs, if_neg (by norm_num), exceptBindOk]; norm_num)
    (by norm_num) rfl (by simp) (Or.inl rfl) (by decide) rfl (by decide)
  constructor
  · intro s' w' h
    have hs := someOfInit_ok _ 3 false 1 s' w' h
    rw [hs.1, hs.2]
    exact ⟨by norm_num, by norm_num⟩
  · rw [base.2.1.1]
    rfl

theorem writeRow_length (idx : Nat) (irow : List Pixel) (prow : List Int)
    (h : prow.length = irow.length) :
    ((irow.zip prow).map (fun pv => pv.1.set idx pv.2)).length = irow.length := by
  simp [List.length_zip, h]

theorem writeRow_pix_length (idx : Nat) :
    ∀ (irow : List Pixel) (prow : List Int), prow.length = irow.length → ∀ j,
      (((irow.zip prow).map (fun pv => pv.1.set idx pv.2)).getD j []).length =
        (irow.getD j []).length := by
  intro irow
  induction irow with
  | nil =>
    intro prow h j
    have hp : prow = [] := List.length_eq_zero.mp (by simpa using h)
    subst hp
    rfl
  | cons pix irest ih =>
    intro prow h j
    cases prow with
    | nil => simp at h
    | cons v vrest =>
      cases j with
      | zero => simp [List.length_set]
      | succ j =>
        simp only [List.zip_cons_cons, List.map_cons, List.getD_cons_succ]
        exact ih vrest (by simpa using h) j

theorem writeRow_pix_get (idx : Nat) :
    ∀ (irow : List Pixel) (prow : List Int), prow.length = irow.length → ∀ j c, c ≠ idx →
      (((irow.zip prow).map (fun pv => pv.1.set idx pv.2)).getD j [])[c]? =
        (irow.getD j [])[c]? := by
  intro irow
  induction irow with
  | nil =>
    intro prow h j c hc
    have hp : prow = [] := List.length_eq_zero.mp (by simpa using h)
    subst hp
    rfl
  | cons pix irest ih =>
    intro prow h j c hc
    cases prow with
    | nil => simp at h
    | cons v vrest =>
      cases j with
      | zero =>
        simp only [List.zip_cons_cons, List.map_cons, List.getD_cons_zero]
        exact List.getElem?_set_ne (fun he => hc he.symm)
      | succ j =>
        simp only [List.zip_cons_cons, List.map_cons, List.getD_cons_succ]
        exact ih vrest (by simpa using h) j c hc

theorem writeImg_spec (idx : Nat) :
    ∀ (img : Image) (pl : Plane), pl.length = img.length →
      ((pl.zip img).all fun rp => rp.1.length = rp.2.length) = true →
      ((img.zip pl).map
          (fun rp => (rp.1.zip rp.2).map (fun pv => pv.1.set idx pv.2))).length =
        img.length ∧
      (∀ i, (((img.zip pl).map
          (fun rp => (rp.1.zip rp.2).map (fun pv => pv.1.set idx pv.2))).getD i []).length =
        (img.getD i []).length) ∧
      (∀ i j, ((((img.zip pl).map
          (fun rp => (rp.1.zip rp.2).map (fun pv => pv.1.set idx pv.2))).getD i []).getD j []).length =
        ((img.getD i []).getD j []).length) ∧
      (∀ i j c, c ≠ idx → ((((img.zip pl).map
          (fun rp => (rp.1.zip rp.2).map (fun pv => pv.1.set idx pv.2))).getD i []).getD j [])[c]? =
        ((img.getD i []).getD j [])[c]?) := by
  intro img
  induction img with
  | nil =>
    intro pl h hall
    have hp : pl = [] := List.length_eq_zero.mp (by simpa using h)
    subst hp
    exact ⟨rfl, fun _ => rfl, fun _ _ => rfl, fun _ _ _ _ => rfl⟩
  | cons irow irest ih =>
    intro pl h hall
    cases pl with
    | nil => simp at h
    | cons prow prest =>
      have hlen : prow.length = irow.length := by
        have := List.all_eq_true.mp hall (prow, irow) (by simp)
        simpa using this
      have hall' : ((prest.zip irest).all fun rp => rp.1.length = rp.2.length) = true := by
        rw [List.all_eq_true]
        intro rp hrp
        exact List.all_eq_true.mp hall rp (by simp [hrp])
      have hrest := ih prest (by simpa using h) hall'
      refine ⟨?_, ?_, ?_, ?_⟩
      · simp only [List.zip_cons_cons, List.map_cons, List.length_cons]
        rw [hrest.1]
      · intro i
        cases i with
        | zero =>
          simp only [List.zip_cons_cons, List.map_cons, List.getD_cons_zero]
          exact writeRow_length idx irow prow hlen
        | succ i =>
          simp only [List.zip_cons_cons, List.map_cons, List.getD_cons_succ]
          exact hrest.2.1 i
      · intro i j
        cases i with
        | zero =>
          simp only [List.zip_cons_cons, List.map_cons, List.getD_cons_zero]
          exact writeRow_pix_length idx irow prow hlen j
        | succ i =>
          simp only [List.zip_cons_cons, List.map_cons, List.getD_cons_succ]
          exact hrest.2.2.1 i j
      · intro i j c hc
        cases i with
        | zero =>
          simp only [List.zip_cons_cons, List.map_cons, List.getD_cons_zero]
          exact writeRow_pix_get idx irow prow hlen j c hc
        | succ i =>
          simp only [List.zip_cons_cons, List.map_cons, List.getD_cons_succ]
          exact hrest.2.2.2 i j c hc

theorem writeChannel_spec (img : Image) (idx : Nat) (pl : Plane) (out : Image)
    (h : writeChannel img idx pl = some out) :
    out.length = img.length ∧
    (∀ i, (out.getD i []).length = (img.getD i []).length) ∧
    (∀ i j, ((out.getD i []).getD j []).length = ((img.getD i []).getD j []).length) ∧
    (∀ i j c, c ≠ idx →
      ((out.getD i []).getD j [])[c]? = ((img.getD i []).getD j [])[c]?) := by
  rw [writeChannel] at h
  split at h
  case isTrue hcond =>
    injection h with h'
    subst h'
    exact writeImg_spec idx img pl hcond.2.1 (by exact_mod_cast hcond.2.2)
  case isFalse => exact absurd h (by simp)

theorem writeChannels_spec (chs : List Nat) :
    ∀ (pairs : List (Nat × Plane)) (img out : Image),
      (∀ pr ∈ pairs, pr.1 ∈ chs) → writeChannels img pairs = some out →
      out.length = img.length ∧
      (∀ i, (out.getD i []).length = (img.getD i []).length) ∧
      (∀ i j, ((out.getD i []).getD j []).length = ((img.getD i []).getD j []).length) ∧
      (∀ i j c, c ∉ chs →
        ((out.getD i []).getD j [])[c]? = ((img.getD i []).getD j [])[c]?) := by
  intro pairs
  induction pairs with
  | nil =>
    intro img out _ h
    injection h with h'
    subst h'
    exact ⟨rfl, fun _ => rfl, fun _ _ => rfl, fun _ _ _ _ => rfl⟩
  | cons pr rest ih =>
    intro img out hmem h
    rcases pr with ⟨idx, pl⟩
    rw [writeChannels] at h
    rcases hw : writeChannel img idx pl with _ | img1
    · rw [hw] at h
      exact absurd h (by simp)
    · rw [hw] at h
      have h1 := writeChannel_spec img idx pl img1 hw
      have h2 := ih img1 out (fun q hq => hmem q (List.mem_cons_of_mem _ hq)) h
      have hidx : idx ∈ chs := hmem (idx, pl) (List.mem_cons_self _ rest)
      refine ⟨h2.1.trans h1.1, fun i => (h2.2.1 i).trans (h1.2.1 i),
        fun i j => (h2.2.2.1 i j).trans (h1.2.2.1 i j), fun i j c hc => ?_⟩
      have hne : c ≠ idx := fun he => hc (he ▸ hidx)
      exact (h2.2.2.2 i j c hc).trans (h1.2.2.2 i j c hne)

/-- C2: when the gate of `SelectiveChannelTransform` passes and the call
succeeds, only `data["image"]` is reassigned (all other bundle fields pass
through unchanged), the output image has the same height, the same per-row
width and the same per-pixel channel count as the input, and every channel
whose index is not in the configured channel list is byte-identical to the
input. -/
theorem sct_frame (s : SCTC) (nargs : Nat) (force : Bool) (gate : ℚ)
    (coins : Nat → ℚ) (b b' : SCTBundle)
    (hgate : force = true ∨ gate < s.p)
    (h : sctCall s nargs force gate coins b = .ok b') :
    b'.rest = b.rest ∧
    b'.image.length = b.image.length ∧
    (∀ i, (b'.image.getD i []).length = (b.image.getD i []).length) ∧
    (∀ i j, ((b'.image.getD i []).getD j []).length =
      ((b.image.getD i []).getD j []).length) ∧
    (∀ i j c, c ∉ s.channels →
      ((b'.image.getD i []).getD j [])[c]? = ((b.image.getD i []).getD j [])[c]?) := by
  rw [sctCall, if_pos hgate] at h
  rcases he : extractImage b.image s.channels with _ | sub0
  · rw [he] at h
    exact absurd h (by simp)
  · rw [he] at h
    simp only at h
    rcases hw : writeChannels b.image
        (s.channels.zip (splitChannels (callSeq s.transforms coins sub0))) with _ | out
    · rw [hw] at h
      exact absurd h (by simp)
    · rw [hw] at h
      injection h with h'
      subst h'
      have hspec := writeChannels_spec s.channels _ b.image out
        (fun pr hpr => (List.of_mem_zip hpr).1) hw
      exact ⟨rfl, hspec.1, hspec.2.1, hspec.2.2.1, hspec.2.2.2⟩

/-- C2 witness: `channels=(0,2)` on a 1×1 3-channel image with a child that
adds 10 to every value; channel 1 stays byte-identical, dims unchanged,
`rest` unchanged. -/
theorem sct_frame_witness :
    sctCall (sctInit [⟨1, fun img => img.map (fun row => row.map (fun pix =>
        pix.map (fun v => v + 10))), []⟩] [0, 2] 1) 0 true 0 (fun _ => 0)
      ⟨[[[1, 2, 3]]], [("labels", 7)]⟩ = .ok ⟨[[[11, 2, 13]]], [("labels", 7)]⟩ ∧
    (⟨[[[11, 2, 13]]], [("labels", 7)]⟩ : SCTBundle).rest =
      (⟨[[[1, 2, 3]]], [("labels", 7)]⟩ : SCTBundle).rest ∧
    (∀ i j c, c ∉ [0, 2] →
      (((⟨[[[11, 2, 13]]], [("labels", 7)]⟩ : SCTBundle).image.getD i []).getD j [])[c]? =
      (((⟨[[[1, 2, 3]]], [("labels", 7)]⟩ : SCTBundle).image.getD i []).getD j [])[c]?) := by
  have hcall : sctCall (sctInit [⟨1, fun img => img.map (fun row => row.map (fun pix =>
      pix.map (fun v => v + 10))), []⟩] [0, 2] 1) 0 true 0 (fun _ => 0)
      ⟨[[[1, 2, 3]]], [("labels", 7)]⟩ = .ok ⟨[[[11, 2, 13]]], [("labels", 7)]⟩ := by rfl
  have hspec := sct_frame (sctInit [⟨1, fun img => img.map (fun row => row.map (fun pix =>
      pix.map (fun v => v + 10))), []⟩] [0, 2] 1) 0 true 0 (fun _ => 0)
      ⟨[[[1, 2, 3]]], [("labels", 7)]⟩ ⟨[[[11, 2, 13]]], [("labels", 7)]⟩
      (Or.inl rfl) hcall
  exact ⟨hcall, hspec.1, hspec.2.2.2.2⟩

theorem set_getD_self : ∀ (l : List Int) (c : Nat), c < l.length →
    l.set c (l.getD c 0) = l := by
  intro l
  induction l with
  | nil => intro c h; simp at h
  | cons a rest ih =>
    intro c h
    cases c with
    | zero => simp
    | succ c =>
      simp only [List.getD_cons_succ, List.set_cons_succ]
      rw [ih c (by simpa using h)]

theorem getD_eq_get (l : List Int) (c : Nat) (h : c < l.length) :
    l.getD c 0 = l[c] := by
  rw [List.getD_eq_getElem?_getD, List.getElem?_eq_getElem h]
  rfl

theorem extractPixel_eq (pix : Pixel) : ∀ chs : List Nat,
    (∀ c ∈ chs, c < pix.length) →
    extractPixel pix chs = some (chs.map (fun c => pix.getD c 0)) := by
  intro chs
  induction chs with
  | nil => intro _; rfl
  | cons c cs ih =>
    intro h
    have hc : c < pix.length := h c (List.mem_cons_self c cs)
    have ihc := ih (fun c2 hc2 => h c2 (List.mem_cons_of_mem c hc2))
    rw [extractPixel] at ihc ⊢
    rw [List.mapM_cons, List.getElem?_eq_getElem hc, ihc]
    simp only [Option.bind_eq_bind, Option.some_bind]
    rw [List.map_cons, getD_eq_get pix c hc]
    rfl

theorem extractRow_eq (chs : List Nat) : ∀ row : List Pixel,
    (∀ pix ∈ row, ∀ c ∈ chs, c < pix.length) →
    row.mapM (fun pix => extractPixel pix chs) =
      some (row.map (fun pix => chs.map (fun c => pix.getD c 0))) := by
  intro row
  induction row with
  | nil => intro _; rfl
  | cons pix rest ih =>
    intro h
    rw [List.mapM_cons, extractPixel_eq pix chs (h pix (List.mem_cons_self pix rest)),
      ih (fun pix2 hp c hc => h pix2 (List.mem_cons_of_mem pix hp) c hc)]
    rfl

theorem extractImage_eq (chs : List Nat) : ∀ img : Image,
    (∀ row ∈ img, ∀ pix ∈ row, ∀ c ∈ chs, c < pix.length) →
    extractImage img chs =
      some (img.map (fun row => row.map (fun pix => chs.map (fun c => pix.getD c 0)))) := by
  intro img
  induction img with
  | nil => intro _; rfl
  | cons row rest ih =>
    intro h
    rw [extractImage, List.mapM_cons,
      extractRow_eq chs row (fun pix hp c hc => h row (List.mem_cons_self row rest) pix hp c hc)]
    rw [extractImage] at ih
    rw [ih (fun row2 hr pix hp c hc => h row2 (List.mem_cons_of_mem row hr) pix hp c hc)]
    rfl

theorem callSeqAux_noop {α : Type} (coins : Nat → ℚ) :
    ∀ (ts : List (Tr α)) (i0 : Nat) (d : α),
      (∀ k t, ts[k]? = some t → ¬coins (i0 + k) < t.p) →
      callSeqAux coins ts i0 d = d := by
  intro ts
  induction ts with
  | nil => intro i0 d _; rfl
  | cons t rest ih =>
    intro i0 d h
    have h0 : ¬coins i0 < t.p := by
      have := h 0 t (by simp)
      simpa using this
    rw [callSeqAux, Tr.call, if_neg (by simp [h0])]
    apply ih (i0 + 1) d
    intro k tk hk
    have h2 := h (k + 1) tk (by simpa using hk)
    have harith : i0 + (k + 1) = i0 + 1 + k := by omega
    rwa [harith] at h2

theorem map_getD_lt {β γ : Type} (f : β → γ) (dB : β) (dC : γ) :
    ∀ (l : List β) (k : Nat), k < l.length → (l.map f).getD k dC = f (l.getD k dB) := by
  intro l
  induction l with
  | nil => intro k h; simp at h
  | cons a rest ih =>
    intro k h
    cases k with
    | zero => rfl
    | succ k =>
      simp only [List.map_cons, List.getD_cons_succ]
      exact ih k (by simpa using h)

theorem list_map_eq_range_getD {β : Type} :
    ∀ (l : List Nat) (f : Nat → β),
      l.map f = (List.range l.length).map (fun k => f (l.getD k 0)) := by
  intro l
  induction l with
  | nil => intro f; rfl
  | cons c cs ih =>
    intro f
    rw [List.map_cons, List.length_cons, List.range_succ_eq_map, List.map_cons,
      List.map_map]
    rw [List.getD_cons_zero]
    have : ((fun k => f ((c :: cs).getD k 0)) ∘ Nat.succ) = fun k => f (cs.getD k 0) := by
      funext k
      simp [Function.comp]
    rw [this, ← ih f]

theorem splitChannels_extract (img : Image) (chs : List Nat)
    (hH : img ≠ []) (hW : img.headD [] ≠ []) :
    splitChannels (img.map (fun row => row.map (fun pix => chs.map (fun c => pix.getD c 0)))) =
      chs.map (planeOf img) := by
  have hcc : channelCount
      (img.map (fun row => row.map (fun pix => chs.map (fun c => pix.getD c 0)))) =
      chs.length := by
    rcases img with _ | ⟨r0, rs⟩
    · exact absurd rfl hH
    rcases r0 with _ | ⟨p0, ps⟩
    · exact absurd rfl hW
    simp [channelCount]
  rw [splitChannels, hcc, list_map_eq_range_getD chs (planeOf img)]
  apply List.map_congr_left
  intro k hk
  rw [List.mem_range] at hk
  rw [planeOf, List.map_map]
  apply List.map_congr_left
  intro row _
  simp only [Function.comp, List.map_map]
  apply List.map_congr_left
  intro pix _
  exact map_getD_lt (fun c => pix.getD c 0) 0 0 chs k hk

theorem planeOf_zip_all (c : Nat) : ∀ img : Image,
    (((planeOf img c).zip img).all fun rp => rp.1.length = rp.2.length) = true := by
  intro img
  induction img with
  | nil => rfl
  | cons row rest ih =>
    rw [planeOf] at ih ⊢
    simp only [List.map_cons, List.zip_cons_cons, List.all_cons, ih]
    simp

theorem rowWrite_self (c : Nat) : ∀ row : List Pixel,
    (∀ pix ∈ row, c < pix.length) →
    ((row.zip (row.map (fun pix => pix.getD c 0))).map (fun pv => pv.1.set c pv.2)) = row := by
  intro row
  induction row with
  | nil => intro _; rfl
  | cons pix rest ih =>
    intro h
    simp only [List.map_cons, List.zip_cons_cons]
    rw [set_getD_self pix c (h pix (List.mem_cons_self pix rest)),
      ih (fun pix2 hp => h pix2 (List.mem_cons_of_mem pix hp))]

theorem imgWrite_self (c : Nat) : ∀ img : Image,
    (∀ row ∈ img, ∀ pix ∈ row, c < pix.length) →
    ((img.zip (planeOf img c)).map
      (fun rp => (rp.1.zip rp.2).map (fun pv => pv.1.set c pv.2))) = img := by
  intro img
  induction img with
  | nil => intro _; rfl
  | cons row rest ih =>
    intro h
    rw [planeOf]
    simp only [List.map_cons, List.zip_cons_cons]
    rw [planeOf] at ih
    rw [rowWrite_self c row (fun pix hp => h row (List.mem_cons_self row rest) pix hp),
      ih (fun row2 hr pix hp => h row2 (List.mem_cons_of_mem row hr) pix hp)]

theorem writeChannel_self (img : Image) (c : Nat) (hc : c < channelCount img)
    (hpix : ∀ row ∈ img, ∀ pix ∈ row, c < pix.length) :
    writeChannel img c (planeOf img c) = some img := by
  rw [writeChannel,
    if_pos ⟨hc, by rw [planeOf, List.length_map], planeOf_zip_all c img⟩]
  rw [imgWrite_self c img hpix]

theorem writeChannels_self (img : Image) :
    ∀ cs : List Nat, (∀ c ∈ cs, c < channelCount img) →
      (∀ c ∈ cs, ∀ row ∈ img, ∀ pix ∈ row, c < pix.length) →
      writeChannels img (cs.zip (cs.map (planeOf img))) = some img := by
  intro cs
  induction cs with
  | nil => intro _ _; rfl
  | cons c rest ih =>
    intro hcc hpix
    simp only [List.map_cons, List.zip_cons_cons]
    rw [writeChannels,
      writeChannel_self img c (hcc c (List.mem_cons_self c rest))
        (hpix c (List.mem_cons_self c rest))]
    exact ih (fun c2 hc2 => hcc c2 (List.mem_cons_of_mem c hc2))
      (fun c2 hc2 => hpix c2 (List.mem_cons_of_mem c hc2))

/-- C10: `SelectiveChannelTransform` invokes its children on the extracted
sub-image without `force_apply`, so each child still gates on its own
probability: if every child's coin fails its gate, the sub-image is
unchanged and — the extracted planes being written back to their original
positions — the whole bundle is returned unchanged even though the
container's own gate passed. -/
theorem sct_children_unforced_noop (s : SCTC) (nargs : Nat) (force : Bool)
    (gate : ℚ) (coins : Nat → ℚ) (b : SCTBundle)
    (hgate : force = true ∨ gate < s.p)
    (hH : b.image ≠ []) (hW : b.image.headD [] ≠ [])
    (hrect : ∀ row ∈ b.image, ∀ pix ∈ row, pix.length = channelCount b.image)
    (hch : ∀ c ∈ s.channels, c < channelCount b.image)
    (hcoins : ∀ k t, s.transforms[k]? = some t → ¬coins k < t.p) :
    sctCall s nargs force gate coins b = .ok b := by
  have hbound : ∀ row ∈ b.image, ∀ pix ∈ row, ∀ c ∈ s.channels, c < pix.length :=
    fun row hr pix hp c hc => (hrect row hr pix hp) ▸ hch c hc
  have hnoop : callSeq s.transforms coins
      (b.image.map (fun row => row.map (fun pix => s.channels.map (fun c => pix.getD c 0)))) =
      b.image.map (fun row => row.map (fun pix => s.channels.map (fun c => pix.getD c 0))) := by
    apply callSeqAux_noop
    intro k t hk
    simpa using hcoins k t hk
  rw [sctCall, if_pos hgate,
    extractImage_eq s.channels b.image
      (fun row hr pix hp c hc => hbound row hr pix hp c hc)]
  simp only
  rw [hnoop, splitChannels_extract b.image s.channels hH hW,
    writeChannels_self b.image s.channels hch
      (fun c hc row hr pix hp => hbound row hr pix hp c hc)]

/-- C10 witness: one child with `p=1/2` and coin `1/2` (gate fails since the
comparison is strict); the bundle is returned unchanged although the
container's gate passed. -/
theorem sct_children_unforced_noop_witness :
    sctCall (⟨[⟨1/2, fun img => img.map (fun row => row.map (fun pix =>
        pix.map (fun v => v + 10))), []⟩], [0, 2], 1, false⟩ : SCTC) 0 true 0
      (fun _ => 1/2) ⟨[[[1, 2, 3]]], [("labels", 7)]⟩ =
      .ok ⟨[[[1, 2, 3]]], [("labels", 7)]⟩ :=
  sct_children_unforced_noop
    ⟨[⟨1/2, fun img => img.map (fun row => row.map (fun pix =>
      pix.map (fun v => v + 10))), []⟩], [0, 2], 1, false⟩ 0 true 0 (fun _ => 1/2)
    ⟨[[[1, 2, 3]]], [("labels", 7)]⟩ (Or.inl rfl) (by simp) (by simp)
    (by intro row hr pix hp
        simp at hr
        subst hr
        simp at hp
        subst hp
        rfl)
    (by decide)
    (by intro k t hk
        cases k with
        | zero =>
          injection hk with hk'
          subst hk'
          norm_num
        | succ k => simp at hk)

end AlbumComp
